import Mathlib

/-!
Verification of the at-feeds streaming classifier and index maintainer.

The development shallowly embeds the core of the repository:
`util/csv-mappings.ts` (the hot-reloadable handle → domain registry),
`util/indieweb.ts` (link extraction and domain derivation) and
`subscription.ts` (`FirehoseSubscription.handleEvent` and
`getHandleFromDid`).  External platform services (the file system, the
`URL` constructor and the DID resolver) are modelled as explicit
parameters; JavaScript string primitives (`toLowerCase`, `endsWith`,
`includes`, `replace`, `split`, `trim`) are embedded as list-of-character
functions faithful to their ASCII behaviour.
-/

namespace ATFeeds

/-! ### JavaScript string primitives, embedded over `List Char` -/

/-- JS `s.toLowerCase()` (ASCII range). -/
def lowerStr (s : String) : String := ⟨s.data.map Char.toLower⟩

/-- JS `s.endsWith(suf)`. -/
def strEndsWith (s suf : String) : Bool := List.isSuffixOf suf.data s.data

/-- JS `s.startsWith(p)`. -/
def strStartsWith (s p : String) : Bool := List.isPrefixOf p.data s.data

/-- Does `pat` occur as a contiguous run somewhere in `l`? -/
def hasSubstrList (pat : List Char) : List Char → Bool
  | [] => pat.isEmpty
  | c :: rest => List.isPrefixOf pat (c :: rest) || hasSubstrList pat rest

/-- JS `s.includes(pat)`. -/
def hasSubstr (pat s : String) : Bool := hasSubstrList pat.data s.data

/-- Remove the first occurrence of `pat` from `l` (identity when `pat` does
not occur).  Embeds JS `s.replace(pat, "")` with a string pattern, which
replaces only the FIRST occurrence, anywhere in the string. -/
def replaceFirstList (pat : List Char) : List Char → List Char
  | [] => []
  | c :: rest =>
    if List.isPrefixOf pat (c :: rest) then (c :: rest).drop pat.length
    else c :: replaceFirstList pat rest

/-- JS `s.replace(pat, "")`. -/
def jsReplaceFirst (pat s : String) : String := ⟨replaceFirstList pat.data s.data⟩

/-- Split a character list at every occurrence of the separator `c`
(JS `s.split(c)` for a one-character separator). -/
def splitChar (c : Char) : List Char → List (List Char)
  | [] => [[]]
  | x :: xs =>
    if x = c then [] :: splitChar c xs
    else
      match splitChar c xs with
      | [] => [[x]]
      | y :: ys => (x :: y) :: ys

/-- JS `s.split(sep)` for a one-character separator. -/
def splitStr (c : Char) (s : String) : List String :=
  (splitChar c s.data).map fun l => ⟨l⟩

/-- Whitespace characters trimmed by JS `trim` (ASCII subset). -/
def isJsSpace (c : Char) : Bool :=
  c = ' ' || c = '\t' || c = '\n' || c = '\r' || c = '\x0b' || c = '\x0c'

/-- JS `s.trim()`. -/
def trimStr (s : String) : String :=
  ⟨((s.data.dropWhile isJsSpace).reverse.dropWhile isJsSpace).reverse⟩

/-! ### Mapping Registry (`util/csv-mappings.ts`, class `IndiewebMappings`)

The in-memory `Map<string, string[]>` is embedded as an insertion-ordered
association list. -/

/-- The handle → domains table held by `IndiewebMappings.mappings`. -/
abbrev MapSL := List (String × List String)

/-- JS `Map.get`: first (only) binding of the key, if any. -/
def mapGet (m : MapSL) (k : String) : Option (List String) :=
  (m.find? fun p => p.1 == k).map Prod.snd

/-- JS `Map.set`: update an existing binding in place, else append. -/
def mapSet (m : MapSL) (k : String) (v : List String) : MapSL :=
  if m.any (fun p => p.1 == k) then
    m.map fun p => if p.1 == k then (k, v) else p
  else m ++ [(k, v)]

/-- One iteration of the parsing loop in `IndiewebMappings.load`
(body of `for (const line of lines)`), acting on the accumulator
`newMappings`.  `lineNumber` is 1-based, counted over the kept lines. -/
def parseLine (acc : MapSL) (lineNumber : Nat) (line : String) : MapSL :=
  if lineNumber = 1 && hasSubstr "handle" (lowerStr line) then acc
  else if trimStr line = "" || strStartsWith (trimStr line) "#" then acc
  else
    let parts := (splitStr ',' line).map trimStr
    if parts.length < 2 then acc
    else
      let handle := lowerStr (parts.getD 0 "")
      let domain := lowerStr (parts.getD 1 "")
      if handle = "" || domain = "" then acc
      else mapSet acc handle ((mapGet acc handle).getD [] ++ [domain])

/-- The pure part of `IndiewebMappings.load`: parse a CSV file body into a
fresh table.  Lines are split on newline, blank (all-whitespace) lines are
dropped before numbering, a first line containing "handle" is a header,
`#` lines are comments, and each remaining row is split on commas,
trimmed, and must have at least two non-empty fields; handle and domain
are lowercased; one handle may accumulate several domains. -/
def parseMappings (content : String) : MapSL :=
  let lines := (splitStr '\n' content).filter fun l => trimStr l ≠ ""
  lines.enum.foldl (fun acc p => parseLine acc (p.1 + 1) p.2) []

/-- Outcome of the file-system interaction inside `IndiewebMappings.load`:
the file is missing (`existsSync` false), reading threw, or reading
returned a content string. -/
inductive FileResult
  | missing
  | readErr
  | content (s : String)

/-- `IndiewebMappings.load`: on a missing file the table is CLEARED; when
reading throws, the previous table is kept; otherwise the table is wholly
replaced by the freshly parsed one. -/
def load (f : FileResult) (current : MapSL) : MapSL :=
  match f with
  | .missing => []
  | .readErr => current
  | .content s => parseMappings s

/-- `IndiewebMappings.getDomainsForHandle`. -/
def getDomainsForHandle (m : MapSL) (handle : String) : List String :=
  (mapGet m (lowerStr handle)).getD []

/-! ### Identity resolution (`FirehoseSubscription.getHandleFromDid`) -/

/-- The part of a DID document the code reads. -/
structure DidDoc where
  alsoKnownAs : Option (List String)

/-- Outcome of the external `didResolver.resolve` call: it threw, or it
returned a document-or-null. -/
inductive ResolveResult
  | err
  | ok (doc : Option DidDoc)

/-- The external DID resolver, as a black box. -/
abbrev Resolver := String → ResolveResult

/-- `FirehoseSubscription.getHandleFromDid`: `null` on a thrown error, a
null document, a missing alias array, an empty alias array, or an empty
first alias (all falsy in JS); otherwise the first alias with the first
occurrence of "at://" removed. -/
def getHandleFromDid (resolver : Resolver) (did : String) : Option String :=
  match resolver did with
  | .err => none
  | .ok none => none
  | .ok (some doc) =>
    match doc.alsoKnownAs with
    | none => none
    | some aka =>
      match aka.head? with
      | none => none
      | some a => if a = "" then none else some (jsReplaceFirst "at://" a)

/-! ### Link extraction (`util/indieweb.ts`) -/

/-- A feature of a rich-text facet; the code only distinguishes links. -/
inductive FacetFeature
  | link (uri : String)
  | other

/-- A rich-text facet: a list of features. -/
structure Facet where
  features : List FacetFeature

/-- A post embed; the code only distinguishes the link-card embed. -/
inductive PostEmbed
  | extLink (uri : String)
  | other

/-- The part of a post record the pipeline reads. -/
structure PostRecord where
  text : String
  facets : Option (List Facet)
  embed : Option PostEmbed

/-- `extractAllLinks`: facet link uris in order, then the external embed
uri, if present. -/
def extractAllLinks (post : PostRecord) : List String :=
  let facetLinks :=
    match post.facets with
    | none => []
    | some fs =>
      (fs.map fun f =>
        f.features.filterMap fun ft =>
          match ft with
          | .link u => some u
          | .other => none).flatten
  match post.embed with
  | some (.extLink u) => facetLinks ++ [u]
  | _ => facetLinks

/-- `getDomainFromUrl`: the platform `URL` constructor is modelled by the
`hostname` oracle (`none` when parsing throws); the code lowercases the
hostname. -/
def getDomainFromUrl (hostname : String → Option String) (url : String) :
    Option String :=
  (hostname url).map lowerStr

/-! ### The event handler (`FirehoseSubscription.handleEvent`) -/

/-- A post-creation operation from `getOpsByType`. -/
structure CreateOp where
  uri : String
  cid : String
  author : String
  record : PostRecord

/-- A post-deletion operation from `getOpsByType`. -/
structure DeleteOp where
  uri : String

/-- The per-event create/delete operation lists for the post collection. -/
structure PostOps where
  creates : List CreateOp
  deletes : List DeleteOp

/-- A decoded stream event: a commit (with its operations), or anything
else (`isCommit` false). -/
inductive RepoEvent
  | commit (ops : PostOps)
  | nonCommit

/-- A row of the `post` table. -/
structure PostRow where
  uri : String
  cid : String
  indexedAt : String
deriving DecidableEq

/-- A row of the `indieweb_post` table. -/
structure IndiewebPostRow where
  uri : String
  cid : String
  author : String
  indexedAt : String
deriving DecidableEq

/-- The two index tables the handler writes. -/
structure DB where
  post : List PostRow
  indieweb_post : List IndiewebPostRow
deriving DecidableEq

/-- `deleteFrom(t).where('uri','in',uris)`: drop every row whose uri is in
the list. -/
def deleteUris {α : Type} (uriOf : α → String) (table : List α)
    (uris : List String) : List α :=
  table.filter fun r => !(uris.contains (uriOf r))

/-- One row of `insertInto(t).values(...).onConflict(doNothing)`: a row
whose uri is already present is dropped. -/
def insertIgnore {α : Type} (uriOf : α → String) (table : List α) (r : α) :
    List α :=
  if table.any (fun x => uriOf x == uriOf r) then table else table ++ [r]

/-- `insertInto(t).values(rows).onConflict(doNothing)`: rows are applied in
order, each seeing the effect of the earlier ones. -/
def insertIgnoreMany {α : Type} (uriOf : α → String) (table : List α)
    (rows : List α) : List α :=
  rows.foldl (insertIgnore uriOf) table

/-- Does one extracted link admit the post?  The JS guard
`if (!domain) continue` is falsy: it skips the link when the parse threw
(`null`) AND when the parsed hostname is the empty string; only then
check 1 (direct handle match, barred for `.bsky.social` handles) and
check 2 (CSV mapping match) run, as in the body of the
`for (const link of links)` loop. -/
def linkMatches (hostname : String → Option String) (handle : String)
    (csvMappedDomains : List String) (link : String) : Bool :=
  match getDomainFromUrl hostname link with
  | none => false
  | some domain =>
    if domain = "" then false
    else
      (!(strEndsWith handle ".bsky.social") &&
          (lowerStr domain == lowerStr handle)) ||
        csvMappedDomains.any fun m => m == lowerStr domain

/-- The `hasMatch` loop: true iff some link matches (the loop breaks at the
first match; `List.any` has the same short-circuit semantics). -/
def classifyHasMatch (hostname : String → Option String) (handle : String)
    (csvMappedDomains : List String) (links : List String) : Bool :=
  links.any (linkMatches hostname handle csvMappedDomains)

/-- The classification-branch body for one created post: skip when there
are no links; the JS guard `if (!handle) continue` ("Skip if we can't
resolve the handle") is falsy, so it skips both a `null` return and an
empty-string handle; otherwise stage a row exactly when some link
matches.  The staged row's `author` field is `create.author` (the DID),
not the resolved handle. -/
def stageIndiewebPost (hostname : String → Option String)
    (resolver : Resolver) (mappings : MapSL) (now : String) (c : CreateOp) :
    Option IndiewebPostRow :=
  let links := extractAllLinks c.record
  if links.length = 0 then none
  else
    match getHandleFromDid resolver c.author with
    | none => none
    | some handle =>
      if handle = "" then none
      else
        let csvMappedDomains := getDomainsForHandle mappings handle
        if classifyHasMatch hostname handle csvMappedDomains links then
          some ⟨c.uri, c.cid, c.author, now⟩
        else none

/-- The `indiewebPostsToCreate` list built by the classification branch. -/
def indiewebPostsToCreate (hostname : String → Option String)
    (resolver : Resolver) (mappings : MapSL) (now : String)
    (creates : List CreateOp) : List IndiewebPostRow :=
  creates.filterMap (stageIndiewebPost hostname resolver mappings now)

/-- The `postsToCreate` list built by the keyword branch: posts whose text
contains "alf" case-insensitively. -/
def postsToCreateOf (now : String) (creates : List CreateOp) : List PostRow :=
  (creates.filter fun c => hasSubstr "alf" (lowerStr c.record.text)).map
    fun c => ⟨c.uri, c.cid, now⟩

/-- `FirehoseSubscription.handleEvent`: non-commit events return at once;
for a commit, both branches build their batches, then each table applies
its deletions (guarded on a non-empty list) before its insertions.
`now` stands for `new Date().toISOString()`. -/
def handleEvent (hostname : String → Option String) (resolver : Resolver)
    (mappings : MapSL) (now : String) (db : DB) (evt : RepoEvent) : DB :=
  match evt with
  | .nonCommit => db
  | .commit ops =>
    let postsToDelete := ops.deletes.map DeleteOp.uri
    let postsToCreate := postsToCreateOf now ops.creates
    let post1 :=
      if 0 < postsToDelete.length then
        deleteUris PostRow.uri db.post postsToDelete
      else db.post
    let post2 :=
      if 0 < postsToCreate.length then
        insertIgnoreMany PostRow.uri post1 postsToCreate
      else post1
    let indiewebPostsToDelete := ops.deletes.map DeleteOp.uri
    let iwCreates := indiewebPostsToCreate hostname resolver mappings now
      ops.creates
    let iw1 :=
      if 0 < indiewebPostsToDelete.length then
        deleteUris IndiewebPostRow.uri db.indieweb_post indiewebPostsToDelete
      else db.indieweb_post
    let iw2 :=
      if 0 < iwCreates.length then insertIgnoreMany IndiewebPostRow.uri iw1
        iwCreates
      else iw1
    { post := post2, indieweb_post := iw2 }

/-! ### Uniqueness invariant of the index tables -/

/-- No two rows of a table carry the same uri (the primary-key invariant
of `post` and `indieweb_post`). -/
def noDupUris {α : Type} (uriOf : α → String) (l : List α) : Prop :=
  l.Pairwise fun a b => uriOf a ≠ uriOf b

/-! ### Concrete instances of the external services, for the examples -/

/-- A concrete hostname oracle: the platform URL parser on the two URLs
the examples use. -/
def hostnameEx : String → Option String := fun u =>
  if u = "https://alice.com/post" then some "alice.com"
  else if u = "https://alice.bsky.social/x" then some "alice.bsky.social"
  else none

/-- A concrete resolver: one known DID whose document's first alias is
"at://alice.com"; every other DID errors. -/
def resolverEx : Resolver := fun did =>
  if did = "did:plc:alice" then
    ResolveResult.ok (some ⟨some ["at://alice.com"]⟩)
  else ResolveResult.err

/-- A resolver whose document's first alias contains "at://" in the
middle rather than as a leading scheme. -/
def resolverMidAt : Resolver := fun _ =>
  ResolveResult.ok (some ⟨some ["x.at://y.com"]⟩)

/-- A post record with a single inline facet link and no embed. -/
def recordWithLink (text link : String) : PostRecord :=
  ⟨text, some [⟨[FacetFeature.link link]⟩], none⟩

/-- A post record with no facets and no embed: no extractable links. -/
def recordNoLinks (text : String) : PostRecord := ⟨text, none, none⟩

/-- A creation event by the known DID, linking to the author's own
domain. -/
def createAlice : CreateOp :=
  ⟨"at://did:plc:alice/app.bsky.feed.post/1", "cid1", "did:plc:alice",
    recordWithLink "new blog post" "https://alice.com/post"⟩

/-- A creation event whose text matches the keyword filter and whose
record has no links. -/
def createAlf : CreateOp :=
  ⟨"uri1", "cid1", "did:plc:unknown", recordNoLinks "an alf post"⟩

/-- A single batch that both creates and deletes the uri "uri1". -/
def opsCreateDelete : PostOps := ⟨[createAlf], [⟨"uri1"⟩]⟩

/-- A hostname oracle for the mixed-case shared-hosting example. -/
def hostnameC9 : String → Option String := fun u =>
  if u = "https://alice.bsky.social/x" then some "alice.bsky.social" else none


/-! ## Supporting lemmas -/

/-- `Char.ofNat` round-trips on code points below the surrogate range. -/
theorem char_ofNat_toNat_of_lt {n : Nat} (h : n < 55296) :
    (Char.ofNat n).toNat = n := by
  rw [Char.ofNat, dif_pos (Or.inl h)]
  rfl

/-- `Char.toLower` is idempotent. -/
theorem char_toLower_idem (c : Char) : c.toLower.toLower = c.toLower := by
  by_cases h : c.toNat ≥ 65 ∧ c.toNat ≤ 90
  · have h1 : c.toLower = Char.ofNat (c.toNat + 32) := by
      unfold Char.toLower
      rw [if_pos h]
    have h2 : (Char.ofNat (c.toNat + 32)).toNat = c.toNat + 32 :=
      char_ofNat_toNat_of_lt (by omega)
    rw [h1]
    unfold Char.toLower
    rw [if_neg (by omega :
      ¬((Char.ofNat (c.toNat + 32)).toNat ≥ 65 ∧
        (Char.ofNat (c.toNat + 32)).toNat ≤ 90))]
  · have h1 : c.toLower = c := by
      unfold Char.toLower
      rw [if_neg h]
    rw [h1, h1]

/-- Lowercasing a string is idempotent. -/
theorem lowerStr_idem (s : String) : lowerStr (lowerStr s) = lowerStr s := by
  unfold lowerStr
  congr 1
  rw [List.map_map]
  exact List.map_congr_left fun c _ => char_toLower_idem c

/-- Only the empty string lowercases to the empty string. -/
theorem eq_empty_of_lowerStr_eq_empty {s : String}
    (h : lowerStr s = "") : s = "" := by
  have hd := congrArg String.data h
  simp only [lowerStr] at hd
  have hnil : s.data = [] := List.map_eq_nil_iff.mp hd
  cases s with
  | mk data =>
    simp only at hnil
    rw [hnil]

/-- No binding of a registry table maps to a list containing the empty
domain (the load loop's falsy guard skips empty fields). -/
def cleanDomains (m : MapSL) : Prop :=
  ∀ p, p ∈ m → ∀ d, d ∈ p.2 → d ≠ ""

/-- A value read out of a clean table contains no empty domain. -/
theorem mapGet_clean {m : MapSL} {k : String} {v : List String}
    (hc : cleanDomains m) (h : mapGet m k = some v) :
    ∀ d, d ∈ v → d ≠ "" := by
  unfold mapGet at h
  cases hf : m.find? (fun p => p.1 == k) with
  | none => rw [hf] at h; cases h
  | some pair =>
    rw [hf] at h
    simp only [Option.map_some', Option.some.injEq] at h
    subst h
    exact hc pair (List.mem_of_find?_eq_some hf)

/-- `mapSet` with a clean value keeps a table clean. -/
theorem cleanDomains_mapSet {m : MapSL} {k : String} {v : List String}
    (hc : cleanDomains m) (hv : ∀ d, d ∈ v → d ≠ "") :
    cleanDomains (mapSet m k v) := by
  unfold mapSet
  split
  · intro p hp d hd
    obtain ⟨q, hq, hqp⟩ := List.mem_map.mp hp
    by_cases hqk : (q.1 == k) = true
    · rw [if_pos hqk] at hqp
      subst hqp
      exact hv d hd
    · rw [if_neg hqk] at hqp
      subst hqp
      exact hc q hq d hd
  · intro p hp d hd
    rcases List.mem_append.mp hp with h | h
    · exact hc p h d hd
    · have hpv : p = (k, v) := by simpa using h
      subst hpv
      exact hv d hd

/-- Appending a non-empty domain to a clean table's list stays clean. -/
theorem clean_append_domain {acc : MapSL} {key domain : String}
    (hc : cleanDomains acc) (hdom : domain ≠ "") :
    ∀ d, d ∈ (mapGet acc key).getD [] ++ [domain] → d ≠ "" := by
  intro d hd
  rcases List.mem_append.mp hd with h | h
  · cases hg : mapGet acc key with
    | none => rw [hg] at h; simp at h
    | some v =>
      rw [hg] at h
      exact mapGet_clean hc hg d (by simpa using h)
  · have : d = domain := by simpa using h
    rw [this]
    exact hdom

/-- One parsing step keeps the accumulator clean: the empty-field guard
skips rows with an empty domain. -/
theorem cleanDomains_parseLine (acc : MapSL) (n : Nat) (line : String)
    (hc : cleanDomains acc) : cleanDomains (parseLine acc n line) := by
  unfold parseLine
  split
  · exact hc
  · split
    · exact hc
    · dsimp only
      split
      · exact hc
      · split
        · exact hc
        · next hne =>
          apply cleanDomains_mapSet hc
          apply clean_append_domain hc
          intro hdome
          exact hne (by rw [Bool.or_eq_true]
                        exact Or.inr (decide_eq_true hdome))

/-- Every table produced by parsing a mapping file is clean. -/
theorem cleanDomains_parseMappings (content : String) :
    cleanDomains (parseMappings content) := by
  unfold parseMappings
  have h : ∀ (l : List (Nat × String)) (acc : MapSL), cleanDomains acc →
      cleanDomains (l.foldl (fun a p => parseLine a (p.1 + 1) p.2) acc) := by
    intro l
    induction l with
    | nil => exact fun acc hc => hc
    | cons p rest ih => exact fun acc hc => ih _ (cleanDomains_parseLine _ _ _ hc)
  exact h _ [] fun p hp => absurd hp (List.not_mem_nil p)

/-- A registry lookup on a loaded table never returns the empty domain:
every table the registry ever holds is `[]` (which is `parseMappings ""`)
or the parse of some file content. -/
theorem empty_not_mem_registry (content : String) (handle : String) :
    ("" : String) ∉ getDomainsForHandle (parseMappings content) handle := by
  unfold getDomainsForHandle
  cases hg : mapGet (parseMappings content) (lowerStr handle) with
  | none => simp
  | some v =>
    intro hmem
    exact mapGet_clean (cleanDomains_parseMappings content) hg ""
      (by simpa using hmem) rfl

/-- When the pattern occurs nowhere, the JS first-occurrence replacement
is the identity. -/
theorem replaceFirstList_not_contained {pat l : List Char}
    (h : hasSubstrList pat l = false) : replaceFirstList pat l = l := by
  induction l with
  | nil => rfl
  | cons c rest ih =>
    unfold hasSubstrList at h
    rw [Bool.or_eq_false_iff] at h
    unfold replaceFirstList
    rw [if_neg (by simp [h.1]), ih h.2]

/-- When the pattern sits at the head, the replacement drops it. -/
theorem replaceFirstList_of_pre {pat l : List Char}
    (h : List.isPrefixOf pat l = true) :
    replaceFirstList pat l = l.drop pat.length := by
  cases l with
  | nil =>
    cases pat with
    | nil => rfl
    | cons p ps => simp [List.isPrefixOf] at h
  | cons c rest =>
    unfold replaceFirstList
    rw [if_pos h]

/-- `jsReplaceFirst` is the identity on strings not containing the
pattern. -/
theorem jsReplaceFirst_not_contained {pat a : String}
    (h : hasSubstr pat a = false) : jsReplaceFirst pat a = a := by
  unfold jsReplaceFirst
  rw [replaceFirstList_not_contained h]

/-- On a string starting with "at://", `jsReplaceFirst` drops those five
characters. -/
theorem jsReplaceFirst_of_startsWith {a : String}
    (h : strStartsWith a "at://" = true) :
    jsReplaceFirst "at://" a = ⟨a.data.drop 5⟩ := by
  unfold jsReplaceFirst
  rw [replaceFirstList_of_pre h,
    show ("at://" : String).data.length = 5 from by decide]

/-- `insertIgnore` never removes a row. -/
theorem mem_insertIgnore_of_mem {α : Type} (uriOf : α → String) {t : List α}
    (r : α) {x : α} (hx : x ∈ t) : x ∈ insertIgnore uriOf t r := by
  unfold insertIgnore
  split
  · exact hx
  · exact List.mem_append_left _ hx

/-- `insertIgnoreMany` never removes a row. -/
theorem mem_insertIgnoreMany_of_mem {α : Type} (uriOf : α → String)
    (rows : List α) {t : List α} {x : α} (hx : x ∈ t) :
    x ∈ insertIgnoreMany uriOf t rows := by
  induction rows generalizing t with
  | nil => exact hx
  | cons r rest ih => exact ih (mem_insertIgnore_of_mem uriOf r hx)

/-- After `insertIgnore`, some row carries the inserted row's uri (either
the old conflicting row or the new row). -/
theorem exists_uri_mem_insertIgnore {α : Type} (uriOf : α → String)
    (t : List α) (r : α) :
    ∃ x, x ∈ insertIgnore uriOf t r ∧ uriOf x = uriOf r := by
  unfold insertIgnore
  split
  · next hany =>
    obtain ⟨x, hx, hxe⟩ := List.any_eq_true.mp hany
    exact ⟨x, hx, by simpa [beq_iff_eq] using hxe⟩
  · exact ⟨r, List.mem_append_right _ (by simp), rfl⟩

/-- After `insertIgnoreMany`, each inserted uri is carried by some row. -/
theorem exists_uri_mem_insertIgnoreMany {α : Type} (uriOf : α → String)
    {rows : List α} {u : String} {t : List α}
    (h : ∃ r, r ∈ rows ∧ uriOf r = u) :
    ∃ x, x ∈ insertIgnoreMany uriOf t rows ∧ uriOf x = u := by
  induction rows generalizing t with
  | nil =>
    obtain ⟨r, hr, _⟩ := h
    cases hr
  | cons r rest ih =>
    obtain ⟨r0, hr0, hr0u⟩ := h
    rcases List.mem_cons.mp hr0 with h0 | h0
    · subst h0
      obtain ⟨x, hx, hxe⟩ := exists_uri_mem_insertIgnore uriOf t r0
      exact ⟨x, mem_insertIgnoreMany_of_mem uriOf rest hx, hxe.trans hr0u⟩
    · exact ih ⟨r0, h0, hr0u⟩

/-- Deleting rows (a filter) preserves uri-uniqueness. -/
theorem noDupUris_filter {α : Type} (uriOf : α → String) (p : α → Bool)
    {l : List α} (h : noDupUris uriOf l) : noDupUris uriOf (l.filter p) :=
  h.filter p

/-- `insertIgnore` preserves uri-uniqueness: the appended row's uri is
checked against every existing row first. -/
theorem noDupUris_insertIgnore {α : Type} (uriOf : α → String) {t : List α}
    (r : α) (h : noDupUris uriOf t) :
    noDupUris uriOf (insertIgnore uriOf t r) := by
  unfold insertIgnore
  split
  · exact h
  · next hany =>
    rw [noDupUris, List.pairwise_append]
    refine ⟨h, List.pairwise_singleton _ _, ?_⟩
    intro a ha b hb heq
    have hb' : b = r := by simpa using hb
    subst hb'
    exact hany (List.any_eq_true.mpr ⟨a, ha, by simp [beq_iff_eq, heq]⟩)

/-- `insertIgnoreMany` preserves uri-uniqueness. -/
theorem noDupUris_insertIgnoreMany {α : Type} (uriOf : α → String)
    (rows : List α) {t : List α} (h : noDupUris uriOf t) :
    noDupUris uriOf (insertIgnoreMany uriOf t rows) := by
  induction rows generalizing t with
  | nil => exact h
  | cons r rest ih => exact ih (noDupUris_insertIgnore uriOf r h)

/-- A derived domain is a lowercased hostname, so lowercasing it again
changes nothing. -/
theorem lowerStr_getDomain {hostname : String → Option String}
    {link d : String} (hd : getDomainFromUrl hostname link = some d) :
    lowerStr d = d := by
  unfold getDomainFromUrl at hd
  cases hh : hostname link with
  | none => rw [hh] at hd; simp at hd
  | some raw =>
    rw [hh] at hd
    simp only [Option.map_some', Option.some.injEq] at hd
    rw [← hd]
    exact lowerStr_idem raw

/-- A single link admits the post iff its URL parses and the derived
domain matches by the direct rule or by the registry rule; stated for a
non-empty handle and a registry set without the empty domain (the
program guarantees both: the falsy `!handle` guard and the load loop's
empty-field guard). -/
theorem linkMatches_iff (hostname : String → Option String) (handle : String)
    (csv : List String) (link : String) (hh : handle ≠ "")
    (hcsv : ("" : String) ∉ csv) :
    linkMatches hostname handle csv link = true ↔
      ∃ domain, getDomainFromUrl hostname link = some domain ∧
        ((strEndsWith handle ".bsky.social" = false ∧
            lowerStr domain = lowerStr handle) ∨
          domain ∈ csv) := by
  unfold linkMatches
  cases hd : getDomainFromUrl hostname link with
  | none => simp
  | some d =>
    dsimp only
    by_cases hde : d = ""
    · subst hde
      rw [if_pos rfl]
      constructor
      · intro h
        exact absurd h (by simp)
      · rintro ⟨domain, hdom, hcases⟩
        exfalso
        have hdeq : domain = "" := (Option.some.inj hdom).symm
        subst hdeq
        rcases hcases with ⟨hsuf, heq⟩ | hmem
        · exact hh (eq_empty_of_lowerStr_eq_empty (by rw [← heq]; decide))
        · exact hcsv hmem
    · rw [if_neg hde]
      have hdl : lowerStr d = d := lowerStr_getDomain hd
      simp only [Option.some.injEq]
      constructor
      · intro h
        refine ⟨d, rfl, ?_⟩
        rw [Bool.or_eq_true, Bool.and_eq_true, Bool.not_eq_true'] at h
        rcases h with h | h
        · exact Or.inl ⟨h.1, by simpa [beq_iff_eq] using h.2⟩
        · obtain ⟨m, hm, hme⟩ := List.any_eq_true.mp h
          rw [beq_iff_eq] at hme
          exact Or.inr (by rw [← hdl, ← hme]; exact hm)
      · rintro ⟨domain, hdom, hcases⟩
        subst hdom
        rw [Bool.or_eq_true, Bool.and_eq_true, Bool.not_eq_true']
        rcases hcases with ⟨h1, h2⟩ | h
        · exact Or.inl ⟨h1, by simp [beq_iff_eq, h2]⟩
        · exact Or.inr (List.any_eq_true.mpr ⟨d, h, by simp [beq_iff_eq, hdl]⟩)

/-- The `hasMatch` loop admits iff some link matches. -/
theorem classifyHasMatch_iff (hostname : String → Option String)
    (handle : String) (csv : List String) (links : List String)
    (hh : handle ≠ "") (hcsv : ("" : String) ∉ csv) :
    classifyHasMatch hostname handle csv links = true ↔
      ∃ link, link ∈ links ∧ ∃ domain,
        getDomainFromUrl hostname link = some domain ∧
        ((strEndsWith handle ".bsky.social" = false ∧
            lowerStr domain = lowerStr handle) ∨
          domain ∈ csv) := by
  unfold classifyHasMatch
  rw [List.any_eq_true]
  exact exists_congr fun link =>
    and_congr_right fun _ => linkMatches_iff hostname handle csv link hh hcsv

/-- Whatever the classification branch stages for a created post is that
post's uri, cid, author and the current timestamp. -/
theorem stageIndiewebPost_eq_some {hostname : String → Option String}
    {resolver : Resolver} {mappings : MapSL} {now : String} {c : CreateOp}
    {row : IndiewebPostRow}
    (h : stageIndiewebPost hostname resolver mappings now c = some row) :
    row = ⟨c.uri, c.cid, c.author, now⟩ := by
  unfold stageIndiewebPost at h
  dsimp only at h
  split at h
  · exact absurd h (by simp)
  · split at h
    · exact absurd h (by simp)
    · split at h
      · exact absurd h (by simp)
      · split at h
        · exact (Option.some.inj h).symm
        · exact absurd h (by simp)

/-- For a post with links and a resolved non-falsy (non-empty) handle,
staging reduces to the classifier's verdict. -/
theorem stageIndiewebPost_resolved {hostname : String → Option String}
    {resolver : Resolver} {mappings : MapSL} {now : String} {c : CreateOp}
    {handle : String}
    (hres : getHandleFromDid resolver c.author = some handle)
    (hhandle : handle ≠ "")
    (hlinks : extractAllLinks c.record ≠ []) :
    stageIndiewebPost hostname resolver mappings now c =
      if classifyHasMatch hostname handle (getDomainsForHandle mappings handle)
          (extractAllLinks c.record) then
        some ⟨c.uri, c.cid, c.author, now⟩
      else none := by
  unfold stageIndiewebPost
  dsimp only
  rw [if_neg (by simpa [List.length_eq_zero] using hlinks), hres]
  dsimp only
  rw [if_neg hhandle]

/-- A post without links is never staged. -/
theorem stageIndiewebPost_no_links {hostname : String → Option String}
    {resolver : Resolver} {mappings : MapSL} {now : String} {c : CreateOp}
    (h : extractAllLinks c.record = []) :
    stageIndiewebPost hostname resolver mappings now c = none := by
  unfold stageIndiewebPost
  dsimp only
  rw [if_pos (by simp [h])]

/-- For a commit with deletions and keyword-branch insertions, the post
table after the event is: delete first, then insert. -/
theorem handleEvent_commit_post (hostname : String → Option String)
    (resolver : Resolver) (mappings : MapSL) (now : String) (db : DB)
    (ops : PostOps)
    (hd : 0 < (ops.deletes.map DeleteOp.uri).length)
    (hc : 0 < (postsToCreateOf now ops.creates).length) :
    (handleEvent hostname resolver mappings now db (RepoEvent.commit ops)).post =
      insertIgnoreMany PostRow.uri
        (deleteUris PostRow.uri db.post (ops.deletes.map DeleteOp.uri))
        (postsToCreateOf now ops.creates) := by
  simp only [handleEvent]
  rw [if_pos hd, if_pos hc]

/-- One handled event preserves uri-uniqueness of both tables. -/
theorem handleEvent_preserves_noDup (hostname : String → Option String)
    (resolver : Resolver) (mappings : MapSL) (now : String) (db : DB)
    (evt : RepoEvent)
    (h1 : noDupUris PostRow.uri db.post)
    (h2 : noDupUris IndiewebPostRow.uri db.indieweb_post) :
    noDupUris PostRow.uri
        (handleEvent hostname resolver mappings now db evt).post ∧
      noDupUris IndiewebPostRow.uri
        (handleEvent hostname resolver mappings now db evt).indieweb_post := by
  cases evt with
  | nonCommit => exact ⟨h1, h2⟩
  | commit ops =>
    simp only [handleEvent]
    constructor
    · split
      · apply noDupUris_insertIgnoreMany
        split
        · exact noDupUris_filter _ _ h1
        · exact h1
      · split
        · exact noDupUris_filter _ _ h1
        · exact h1
    · split
      · apply noDupUris_insertIgnoreMany
        split
        · exact noDupUris_filter _ _ h2
        · exact h2
      · split
        · exact noDupUris_filter _ _ h2
        · exact h2

/-! ## The claims -/

/-- C1 counterexample: with a non-empty last-good table and the mapping
file missing, `load` clears the table instead of leaving it at its last
good state, contrary to the claim. -/
theorem c1_counterexample :
    load FileResult.missing [("alice", ["example.com"])] = [] ∧
    ([("alice", ["example.com"])] : MapSL) ≠ [] :=
  ⟨rfl, by decide⟩

/-- C1 (amended): when reading the present file throws, `load` leaves the
table at its last good state; when the file is MISSING it clears the
table to empty; a successful load replaces the table wholly,
independently of the previous state. -/
theorem c1_load_failure_semantics :
    (∀ current : MapSL, load FileResult.readErr current = current) ∧
    (∀ current : MapSL, load FileResult.missing current = []) ∧
    (∀ (s : String) (current₁ current₂ : MapSL),
      load (FileResult.content s) current₁ =
        load (FileResult.content s) current₂) :=
  ⟨fun _ => rfl, fun _ => rfl, fun _ _ _ => rfl⟩

/-- C2 counterexample: an admitted creation event stages a row whose
author field is the event's author DID, which differs from the resolved
handle the claim says is recorded. -/
theorem c2_counterexample :
    getHandleFromDid resolverEx createAlice.author = some "alice.com" ∧
    indiewebPostsToCreate hostnameEx resolverEx [] "T0" [createAlice] =
      [⟨createAlice.uri, createAlice.cid, "did:plc:alice", "T0"⟩] ∧
    ("did:plc:alice" : String) ≠ "alice.com" := by
  decide

/-- C2 (amended): every row staged by the classification branch records
the creation event's uri, cid, its author identifier (the DID, not the
resolved handle) and indexedAt = now. -/
theorem c2_author_field_is_event_author (hostname : String → Option String)
    (resolver : Resolver) (mappings : MapSL) (now : String)
    (creates : List CreateOp) (row : IndiewebPostRow)
    (hmem : row ∈ indiewebPostsToCreate hostname resolver mappings now creates) :
    ∃ c, c ∈ creates ∧ row = ⟨c.uri, c.cid, c.author, now⟩ := by
  unfold indiewebPostsToCreate at hmem
  obtain ⟨c, hc, hstage⟩ := List.mem_filterMap.mp hmem
  exact ⟨c, hc, stageIndiewebPost_eq_some hstage⟩

/-- C2 witness: the amended statement at the concrete admitted event. -/
theorem c2_witness :
    ∃ c, c ∈ [createAlice] ∧
      (⟨createAlice.uri, createAlice.cid, "did:plc:alice", "T0"⟩ :
          IndiewebPostRow) = ⟨c.uri, c.cid, c.author, "T0"⟩ :=
  c2_author_field_is_event_author hostnameEx resolverEx [] "T0" [createAlice]
    ⟨createAlice.uri, createAlice.cid, "did:plc:alice", "T0"⟩ (by decide)

/-- C3 counterexample: a batch creating and deleting the same uri leaves
the created row PRESENT in the post table (the deletion runs first, the
insertion wins), not absent as the claim concludes. -/
theorem c3_counterexample :
    (handleEvent hostnameEx resolverEx [] "T0" ⟨[], []⟩
        (RepoEvent.commit opsCreateDelete)).post = [⟨"uri1", "cid1", "T0"⟩] ∧
    ((handleEvent hostnameEx resolverEx [] "T0" ⟨[], []⟩
        (RepoEvent.commit opsCreateDelete)).post.any
      fun r => r.uri == "uri1") = true := by
  decide

/-- C3 (amended): deletions of a batch are applied before its insertions,
so a batch containing both a keyword-admitted creation and a deletion of
the same uri results in a row for that uri being present after the batch
is persisted. -/
theorem c3_deletes_then_inserts (hostname : String → Option String)
    (resolver : Resolver) (mappings : MapSL) (now : String) (db : DB)
    (ops : PostOps) (u : String)
    (hdel : ∃ d, d ∈ ops.deletes ∧ d.uri = u)
    (hcre : ∃ r, r ∈ postsToCreateOf now ops.creates ∧ r.uri = u) :
    (handleEvent hostname resolver mappings now db
        (RepoEvent.commit ops)).post =
      insertIgnoreMany PostRow.uri
        (deleteUris PostRow.uri db.post (ops.deletes.map DeleteOp.uri))
        (postsToCreateOf now ops.creates) ∧
    ∃ row, row ∈ (handleEvent hostname resolver mappings now db
        (RepoEvent.commit ops)).post ∧ row.uri = u := by
  obtain ⟨d, hd, hdu⟩ := hdel
  obtain ⟨r, hr, hru⟩ := hcre
  have hld : 0 < (ops.deletes.map DeleteOp.uri).length := by
    rw [List.length_map]
    exact List.length_pos.mpr (List.ne_nil_of_mem hd)
  have hlc : 0 < (postsToCreateOf now ops.creates).length :=
    List.length_pos.mpr (List.ne_nil_of_mem hr)
  have heq := handleEvent_commit_post hostname resolver mappings now db ops hld hlc
  refine ⟨heq, ?_⟩
  rw [heq]
  exact exists_uri_mem_insertIgnoreMany PostRow.uri ⟨r, hr, hru⟩

/-- C3 witness: the amended statement at the concrete create-and-delete
batch. -/
theorem c3_witness :
    (handleEvent hostnameEx resolverEx [] "T0" ⟨[], []⟩
        (RepoEvent.commit opsCreateDelete)).post =
      insertIgnoreMany PostRow.uri
        (deleteUris PostRow.uri (DB.mk [] []).post
          (opsCreateDelete.deletes.map DeleteOp.uri))
        (postsToCreateOf "T0" opsCreateDelete.creates) ∧
    ∃ row, row ∈ (handleEvent hostnameEx resolverEx [] "T0" ⟨[], []⟩
        (RepoEvent.commit opsCreateDelete)).post ∧ row.uri = "uri1" :=
  c3_deletes_then_inserts hostnameEx resolverEx [] "T0" ⟨[], []⟩
    opsCreateDelete "uri1" (by decide) (by decide)

/-- C4: for a created post with a non-empty extracted-link list and a
resolved handle — one that passes the code's falsy guard
`if (!handle) continue` ("Skip if we can't resolve the handle"), i.e. a
non-empty handle — a row is staged iff some link's derived domain (links
that fail to parse, or that parse to an empty hostname caught by the
falsy `!domain` guard, are skipped, not fatal) either (a)
case-insensitively equals the handle while the handle does not end with
".bsky.social", or (b) lies in the registry's domain set for the handle.
The registry table is quantified as the parse of an arbitrary file
content: every table the registry ever holds is `[]`
(= `parseMappings ""`) or such a parse, and those tables never contain
the empty domain, so the empty-hostname skip never disagrees with rule
(b).  `List.any` short-circuits at the first matching link exactly as
the loop's `break` does. -/
theorem c4_classifier_iff (hostname : String → Option String)
    (resolver : Resolver) (content : String) (now : String) (c : CreateOp)
    (handle : String)
    (hres : getHandleFromDid resolver c.author = some handle)
    (hhandle : handle ≠ "")
    (hlinks : extractAllLinks c.record ≠ []) :
    indiewebPostsToCreate hostname resolver (parseMappings content) now [c]
        ≠ [] ↔
      ∃ link, link ∈ extractAllLinks c.record ∧ ∃ domain,
        getDomainFromUrl hostname link = some domain ∧
        ((strEndsWith handle ".bsky.social" = false ∧
            lowerStr domain = lowerStr handle) ∨
          domain ∈ getDomainsForHandle (parseMappings content) handle) := by
  rw [← classifyHasMatch_iff hostname handle
    (getDomainsForHandle (parseMappings content) handle)
    (extractAllLinks c.record) hhandle (empty_not_mem_registry content handle)]
  unfold indiewebPostsToCreate
  rw [List.filterMap_cons, stageIndiewebPost_resolved hres hhandle hlinks]
  cases hcm : classifyHasMatch hostname handle
      (getDomainsForHandle (parseMappings content) handle)
      (extractAllLinks c.record) with
  | true => simp
  | false => simp

/-- C4 witness: the classifier equivalence at the concrete admitted
event, over the empty registry table parsed from the empty file. -/
theorem c4_witness :
    (indiewebPostsToCreate hostnameEx resolverEx (parseMappings "") "T0"
        [createAlice] ≠ [] ↔
      ∃ link, link ∈ extractAllLinks createAlice.record ∧ ∃ domain,
        getDomainFromUrl hostnameEx link = some domain ∧
        ((strEndsWith "alice.com" ".bsky.social" = false ∧
            lowerStr domain = lowerStr "alice.com") ∨
          domain ∈ getDomainsForHandle (parseMappings "") "alice.com")) :=
  c4_classifier_iff hostnameEx resolverEx "" "T0" createAlice "alice.com"
    (by decide) (by decide) (by decide)

/-- C5: a created post with no extracted links is skipped with an outcome
independent of the resolver: any two resolver behaviours yield the same
(empty) staging, so the resolver is never consulted. -/
theorem c5_no_links_resolver_independent (hostname : String → Option String)
    (mappings : MapSL) (now : String) (c : CreateOp)
    (h : extractAllLinks c.record = []) :
    ∀ resolver₁ resolver₂ : Resolver,
      indiewebPostsToCreate hostname resolver₁ mappings now [c] =
        indiewebPostsToCreate hostname resolver₂ mappings now [c] ∧
      indiewebPostsToCreate hostname resolver₁ mappings now [c] = [] := by
  intro r1 r2
  have hs : ∀ r : Resolver,
      indiewebPostsToCreate hostname r mappings now [c] = [] := by
    intro r
    unfold indiewebPostsToCreate
    rw [List.filterMap_cons, stageIndiewebPost_no_links h]
    simp
  exact ⟨(hs r1).trans (hs r2).symm, hs r1⟩

/-- C5 witness: the no-links post under two very different resolvers. -/
theorem c5_witness :
    indiewebPostsToCreate hostnameEx resolverEx [] "T0" [createAlf] =
      indiewebPostsToCreate hostnameEx resolverMidAt [] "T0" [createAlf] ∧
    indiewebPostsToCreate hostnameEx resolverEx [] "T0" [createAlf] = [] :=
  c5_no_links_resolver_independent hostnameEx [] "T0" createAlf (by decide)
    resolverEx resolverMidAt

/-- C6: processing the same event twice preserves uri-uniqueness of both
tables: inserting an already-present uri is a no-op, never a duplicate
row and never an error (the embedding is total). -/
theorem c6_reprocessing_idempotent (hostname : String → Option String)
    (resolver : Resolver) (mappings : MapSL) (now : String) (db : DB)
    (evt : RepoEvent)
    (h1 : noDupUris PostRow.uri db.post)
    (h2 : noDupUris IndiewebPostRow.uri db.indieweb_post) :
    noDupUris PostRow.uri
        (handleEvent hostname resolver mappings now
          (handleEvent hostname resolver mappings now db evt) evt).post ∧
      noDupUris IndiewebPostRow.uri
        (handleEvent hostname resolver mappings now
          (handleEvent hostname resolver mappings now db evt) evt).indieweb_post := by
  obtain ⟨g1, g2⟩ :=
    handleEvent_preserves_noDup hostname resolver mappings now db evt h1 h2
  exact handleEvent_preserves_noDup hostname resolver mappings now _ evt g1 g2

/-- C6 witness: replaying a concrete creation event on the empty
database. -/
theorem c6_witness :
    noDupUris PostRow.uri
        (handleEvent hostnameEx resolverEx [] "T0"
          (handleEvent hostnameEx resolverEx [] "T0" ⟨[], []⟩
            (RepoEvent.commit ⟨[createAlf], []⟩))
          (RepoEvent.commit ⟨[createAlf], []⟩)).post ∧
      noDupUris IndiewebPostRow.uri
        (handleEvent hostnameEx resolverEx [] "T0"
          (handleEvent hostnameEx resolverEx [] "T0" ⟨[], []⟩
            (RepoEvent.commit ⟨[createAlf], []⟩))
          (RepoEvent.commit ⟨[createAlf], []⟩)).indieweb_post :=
  c6_reprocessing_idempotent hostnameEx resolverEx [] "T0" ⟨[], []⟩
    (RepoEvent.commit ⟨[createAlf], []⟩) List.Pairwise.nil List.Pairwise.nil

/-- C7 counterexample: a mapping file repeating the same handle,domain
row yields a lookup result in which that domain occurs twice, so the
returned collection is not duplicate-free for every file content. -/
theorem c7_counterexample :
    getDomainsForHandle (parseMappings "alice,example.com\nalice,example.com")
        "alice" = ["example.com", "example.com"] ∧
    ¬ (["example.com", "example.com"] : List String).Nodup := by
  constructor
  · decide
  · decide

/-- C7 (amended): registry lookup is case-insensitive in the handle
(handles equal up to case look up equally) and returns the empty list for
a handle with no binding; the returned list keeps file order and MAY
contain a domain more than once. -/
theorem c7_lookup_behavior (content : String) (h₁ h₂ : String)
    (hcase : lowerStr h₁ = lowerStr h₂) :
    getDomainsForHandle (parseMappings content) h₁ =
        getDomainsForHandle (parseMappings content) h₂ ∧
      ∀ h : String, mapGet (parseMappings content) (lowerStr h) = none →
        getDomainsForHandle (parseMappings content) h = [] := by
  constructor
  · unfold getDomainsForHandle
    rw [hcase]
  · intro h hh
    unfold getDomainsForHandle
    rw [hh]
    rfl

/-- C7 witness: the amended statement at a concrete one-row file. -/
theorem c7_witness :
    getDomainsForHandle (parseMappings "alice,example.com") "ALICE" =
        getDomainsForHandle (parseMappings "alice,example.com") "Alice" ∧
      ∀ h : String, mapGet (parseMappings "alice,example.com") (lowerStr h) = none →
        getDomainsForHandle (parseMappings "alice,example.com") h = [] :=
  c7_lookup_behavior "alice,example.com" "ALICE" "Alice" (by decide)

/-- C8 counterexample: an alias containing "at://" in the middle, not as
a leading scheme, is NOT returned unchanged: the code removes the first
occurrence anywhere. -/
theorem c8_counterexample :
    strStartsWith "x.at://y.com" "at://" = false ∧
    getHandleFromDid resolverMidAt "did:plc:any" = some "x.y.com" ∧
    ("x.y.com" : String) ≠ "x.at://y.com" := by
  decide

/-- C8 (amended): `getHandleFromDid` is total (never raises): it returns
`none` on a resolver error, a null document, a missing alias list, an
empty alias list, or an empty first alias; otherwise it returns the
first alias with the FIRST occurrence of "at://" (anywhere, not only as
a leading scheme) removed, which strips a leading "at://" and leaves an
alias not containing "at://" unchanged. -/
theorem c8_resolution_semantics (resolver : Resolver) (did : String) :
    (resolver did = ResolveResult.err → getHandleFromDid resolver did = none) ∧
    (resolver did = ResolveResult.ok none →
      getHandleFromDid resolver did = none) ∧
    (∀ doc, resolver did = ResolveResult.ok (some doc) →
      doc.alsoKnownAs = none → getHandleFromDid resolver did = none) ∧
    (∀ doc, resolver did = ResolveResult.ok (some doc) →
      doc.alsoKnownAs = some [] → getHandleFromDid resolver did = none) ∧
    (∀ doc rest, resolver did = ResolveResult.ok (some doc) →
      doc.alsoKnownAs = some ("" :: rest) →
      getHandleFromDid resolver did = none) ∧
    (∀ doc a rest, resolver did = ResolveResult.ok (some doc) →
      doc.alsoKnownAs = some (a :: rest) → a ≠ "" →
      getHandleFromDid resolver did = some (jsReplaceFirst "at://" a)) ∧
    (∀ a : String, strStartsWith a "at://" = true →
      jsReplaceFirst "at://" a = ⟨a.data.drop 5⟩) ∧
    (∀ a : String, hasSubstr "at://" a = false →
      jsReplaceFirst "at://" a = a) := by
  refine ⟨?_, ?_, ?_, ?_, ?_, ?_,
    fun a ha => jsReplaceFirst_of_startsWith ha,
    fun a ha => jsReplaceFirst_not_contained ha⟩
  · intro h
    unfold getHandleFromDid
    rw [h]
  · intro h
    unfold getHandleFromDid
    rw [h]
  · intro doc h hk
    unfold getHandleFromDid
    rw [h]
    dsimp only
    rw [hk]
  · intro doc h hk
    unfold getHandleFromDid
    rw [h]
    dsimp only
    rw [hk]
    rfl
  · intro doc rest h hk
    unfold getHandleFromDid
    rw [h]
    dsimp only
    rw [hk]
    rfl
  · intro doc a rest h hk ha
    unfold getHandleFromDid
    rw [h]
    dsimp only
    rw [hk]
    dsimp only [List.head?]
    rw [if_neg ha]

/-- C8 witness: the amended statement applied to the mid-string "at://"
resolver. -/
theorem c8_witness :
    getHandleFromDid resolverMidAt "did:plc:any" =
      some (jsReplaceFirst "at://" "x.at://y.com") :=
  (c8_resolution_semantics resolverMidAt "did:plc:any").2.2.2.2.2.1
    ⟨some ["x.at://y.com"]⟩ "x.at://y.com" [] rfl rfl (by decide)

/-- C9: the shared-hosting-suffix exclusion is a case-sensitive
`endsWith` while the domain-to-handle comparison is case-insensitive: the
handle "alice.Bsky.Social" ends with ".bsky.social" only up to case, so
a post linking to a URL whose hostname case-insensitively equals the
handle is admitted by the direct-match rule. -/
theorem c9_suffix_case_sensitivity :
    strEndsWith "alice.Bsky.Social" ".bsky.social" = false ∧
    strEndsWith (lowerStr "alice.Bsky.Social") ".bsky.social" = true ∧
    classifyHasMatch hostnameC9 "alice.Bsky.Social" []
        ["https://alice.bsky.social/x"] = true := by
  decide

/-- C10: a stream event that is not a commit leaves the database — both
the post and the indieweb_post table — unchanged. -/
theorem c10_non_commit_frame (hostname : String → Option String)
    (resolver : Resolver) (mappings : MapSL) (now : String) (db : DB)
    (evt : RepoEvent) (h : ∀ ops, evt ≠ RepoEvent.commit ops) :
    handleEvent hostname resolver mappings now db evt = db := by
  cases evt with
  | commit ops => exact absurd rfl (h ops)
  | nonCommit => rfl

/-- C10 witness: the frame property at a concrete non-commit event. -/
theorem c10_witness :
    handleEvent hostnameEx resolverEx [] "T0" ⟨[], []⟩ RepoEvent.nonCommit =
      ⟨[], []⟩ :=
  c10_non_commit_frame hostnameEx resolverEx [] "T0" ⟨[], []⟩
    RepoEvent.nonCommit fun _ h => RepoEvent.noConfusion h

end ATFeeds
